import Mathlib

/-!
Verification development for the memory-management core of a small
Unix-like teaching kernel: the physical page allocator (kernel/kalloc.c)
and the sharded LRU buffer cache (kernel/bio.c).

The C code is shallowly embedded: the allocator state and the cache state
become Lean structures, each C function becomes a Lean function on that
state, machine integers become `Nat`/`Int` with explicit wraparound where
it matters, and a call to `panic` becomes the `none` branch of an
`Option`-valued result.  Lock acquisitions and releases on the cache miss
path are additionally recorded as an explicit event trace, so that claims
about lock ordering can be stated.
-/

/-! ## Physical page allocator (kernel/kalloc.c) -/

/-- Page size in bytes: the allocator manages whole 4096-byte pages
(kernel/kalloc.c header comment). -/
def PGSIZE : Nat := 4096

/-- Modelled from the spec: `KERNBASE` comes from memlayout.h, which is not
among the provided sources; the standard value is 0x80000000, the start of
the managed physical range. -/
def KERNBASE : Nat := 0x80000000

/-- Modelled from the spec: `PHYSTOP` comes from memlayout.h, which is not
among the provided sources; the standard value is `KERNBASE + 128 MiB`,
the end of the managed physical range ("fixed pool" in the spec). -/
def PHYSTOP : Nat := KERNBASE + 128 * 1024 * 1024

/-- `NUM_OF_PAGE` from kalloc.c: `(PHYSTOP - KERNBASE) / PGSIZE`. -/
def NUM_OF_PAGE : Nat := (PHYSTOP - KERNBASE) / PGSIZE

/-- `PA2IDX` from kalloc.c: page index of a physical address. -/
def PA2IDX (pa : Nat) : Nat := (pa - KERNBASE) / PGSIZE

/-- `PGROUNDUP` from riscv.h: round an address up to a page boundary. -/
def PGROUNDUP (a : Nat) : Nat := ((a + PGSIZE - 1) / PGSIZE) * PGSIZE

/-- The allocator state `kmem` of kalloc.c.  The intrusive singly linked
free list (`struct run` nodes stored inside the free pages themselves) is
modelled as the list of page addresses it threads through, head first;
`ref_counter` is the per-page signed reference-count array (`int` in C),
and `mem` maps a byte address to its content. -/
structure Kmem where
  freelist : List Nat
  ref_counter : Nat → Int
  mem : Nat → Nat

/-- The effect of C `memset(pa, v, n)` on the byte map. -/
def memsetRange (m : Nat → Nat) (pa v n : Nat) : Nat → Nat :=
  fun a => if pa ≤ a ∧ a < pa + n then v else m a

/-- `kfree` from kalloc.c.  `endAddr` is the linker symbol `end` (first
address after the kernel).  Result `none` models `panic("kfree")` on a
misaligned or out-of-range address.  Otherwise the reference count is
decremented; if the result is `≤ 0` the page is junk-filled with 1s,
pushed onto the free list and its count reset to exactly 0. -/
def kfree (endAddr : Nat) (s : Kmem) (pa : Nat) : Option Kmem :=
  if pa % PGSIZE ≠ 0 ∨ pa < endAddr ∨ PHYSTOP ≤ pa then none
  else
    let idx := PA2IDX pa
    let c := s.ref_counter idx - 1
    if c ≤ 0 then
      some { freelist := pa :: s.freelist
             ref_counter := fun j => if j = idx then 0 else s.ref_counter j
             mem := memsetRange s.mem pa 1 PGSIZE }
    else
      some { s with ref_counter := fun j => if j = idx then c else s.ref_counter j }

/-- `kalloc` from kalloc.c: pop one page off the free list (returning
`none` for the C null pointer when the list is empty), fill it with junk
value 5 and set its reference count to 1. -/
def kalloc (s : Kmem) : Option Nat × Kmem :=
  match s.freelist with
  | [] => (none, s)
  | r :: rest =>
    (some r,
     { freelist := rest
       ref_counter := fun j => if j = PA2IDX r then 1 else s.ref_counter j
       mem := memsetRange s.mem r 5 PGSIZE })

/-- `increase_ref_counter` from kalloc.c: increment the page's reference
count; the free list is not touched. -/
def increase_ref_counter (s : Kmem) (pa : Nat) : Kmem :=
  { s with ref_counter :=
      fun j => if j = PA2IDX pa then s.ref_counter (PA2IDX pa) + 1 else s.ref_counter j }

/-- Loop body of `freerange` from kalloc.c, with an explicit iteration
count: `kfree` each page `p, p + PGSIZE, ...` in turn. -/
def freerangeAux (endAddr : Nat) (s : Option Kmem) (p : Nat) : Nat → Option Kmem
  | 0 => s
  | Nat.succ m =>
    match s with
    | none => none
    | some st => freerangeAux endAddr (kfree endAddr st p) (p + PGSIZE) m

/-- `freerange` from kalloc.c: free every whole page in
`[PGROUNDUP pa_start, pa_end)`. -/
def freerange (endAddr : Nat) (s : Kmem) (pa_start pa_end : Nat) : Option Kmem :=
  freerangeAux endAddr (some s) (PGROUNDUP pa_start) ((pa_end - PGROUNDUP pa_start) / PGSIZE)

/-- `kinit` from kalloc.c: zero all reference counts, start from an empty
free list and seed it with every page in `[end, PHYSTOP)`. -/
def kinit (endAddr : Nat) : Option Kmem :=
  freerange endAddr { freelist := [], ref_counter := fun _ => 0, mem := fun _ => 0 }
    endAddr PHYSTOP

/-- A physical address the `kfree` guard accepts: page-aligned and inside
the managed range `[end, PHYSTOP)`. -/
def validPA (endAddr pa : Nat) : Prop :=
  pa % PGSIZE = 0 ∧ endAddr ≤ pa ∧ pa < PHYSTOP

instance (endAddr pa : Nat) : Decidable (validPA endAddr pa) := by
  unfold validPA
  exact inferInstance

/-- Well-formedness of the allocator state: the free list holds pairwise
distinct, valid page addresses. -/
def KmemWf (endAddr : Nat) (s : Kmem) : Prop :=
  s.freelist.Nodup ∧ ∀ pa ∈ s.freelist, validPA endAddr pa

/-- The reference-count invariant of the spec: a managed page has
reference count 0 exactly when it is in the free list. -/
def RefInv (endAddr : Nat) (s : Kmem) : Prop :=
  ∀ pa, validPA endAddr pa → (s.ref_counter (PA2IDX pa) = 0 ↔ pa ∈ s.freelist)

/-! ## Buffer cache (kernel/bio.c) -/

/-- `NUM_BUCKET` from bio.c. -/
def NUM_BUCKET : Nat := 13

/-- Wraparound modulus for the C `uint` fields. -/
def UINT32 : Nat := 2 ^ 32

/-- `hash_val` from bio.c: bucket index of a key. -/
def hash_val (key : Nat) : Nat := key % NUM_BUCKET

/-- One `struct buf` from buf.h as used by bio.c: identity `(dev,
blockno)`, the `valid` flag, the `uint refcnt`, the `lru_timestamp`
written from `ticks`, the sleep-lock holding bit, and an abstract block
content `data`. -/
structure Buf where
  dev : Nat
  blockno : Nat
  valid : Bool
  refcnt : Nat
  lru_timestamp : Nat
  holding : Bool
  data : Nat
deriving DecidableEq, Repr

/-- The `bcache` state: `bufs` maps a buffer id to its fields and
`buckets` maps a bucket index to the ids linked in that bucket's doubly
linked list, in order from `head.next` (most recently used) to `head.prev`
(least recently used). -/
structure BCache where
  bufs : Nat → Buf
  buckets : Nat → List Nat

/-- Pointwise function update, used for single-buffer field writes. -/
def updF {α : Type} (f : Nat → α) (i : Nat) (v : α) : Nat → α :=
  fun j => if j = i then v else f j

/-- Lock events recorded on the `bget` paths: the global `bcache.lock`,
the per-bucket `bcache.hash_lock[i]`, and the buffer sleep lock. -/
inductive LockEv where
  | acqGlobal : LockEv
  | relGlobal : LockEv
  | acqBucket : Nat → LockEv
  | relBucket : Nat → LockEv
  | acqSleep : Nat → LockEv
deriving DecidableEq, Repr

/-- The bucket scan of bio.c lines 84 and 105: walk the bucket's list from
the most-recently-used end and return the first buffer whose key matches. -/
def scanBucket (s : BCache) (h dev blockno : Nat) : Option Nat :=
  (s.buckets h).find? (fun id => (s.bufs id).dev == dev && (s.bufs id).blockno == blockno)

/-- The eviction scan of bio.c lines 117-142, with the loop counter made
explicit as fuel: visit buckets `i, i+1, ...`, skip the target bucket `h`,
lock each visited bucket, and search it from its least-recently-used end
(`head.prev` backwards, hence `reverse`) for a buffer with `refcnt == 0`.
On success the victim's bucket lock stays held (it is released later by
`bget`); buckets searched in vain are unlocked before moving on.  Returns
the recorded lock events and the victim `(bucket, id)`, if any. -/
def victimScan (s : BCache) (h : Nat) : Nat → Nat → List LockEv × Option (Nat × Nat)
  | _, 0 => ([], none)
  | i, Nat.succ fuel =>
    if i = h then victimScan s h (i + 1) fuel
    else
      match (s.buckets i).reverse.find? (fun id => (s.bufs id).refcnt == 0) with
      | some id => ([LockEv.acqBucket i], some (i, id))
      | none =>
        let r := victimScan s h (i + 1) fuel
        (LockEv.acqBucket i :: LockEv.relBucket i :: r.1, r.2)

/-- The victim chosen by the full eviction scan (all `NUM_BUCKET` loop
iterations, starting at bucket 0). -/
def findVictim (s : BCache) (h : Nat) : Option (Nat × Nat) :=
  (victimScan s h 0 NUM_BUCKET).2

/-- The cache-hit update of bio.c lines 86-89 and 107-111: increment
`refcnt` (a wrapping `uint`), refresh `lru_timestamp` from `ticks`, and
acquire the buffer's sleep lock. -/
def hitBuf (ticks : Nat) (b : Buf) : Buf :=
  { b with refcnt := (b.refcnt + 1) % UINT32, lru_timestamp := ticks, holding := true }

/-- Result of `bget`/`bgetMiss`: the returned buffer id (`none` models
`panic("bget: no buffers")`), the new cache state, and the lock trace. -/
structure BgetOut where
  res : Option Nat
  s : BCache
  trace : List LockEv

/-- The miss path of `bget`, bio.c lines 97-145: taken with the cache
state as it is once the global lock and the target bucket lock have been
acquired (a concurrent acquirer may have changed it since the fast-path
scan).  Re-scan the target bucket (double-checked locking) and treat a
find as a hit; otherwise run the eviction scan.  The victim is unlinked
from its donor bucket, relinked at the most-recently-used position of the
target bucket, its key overwritten, `valid` cleared and `refcnt` set
to 1 — its `lru_timestamp` is left as it was.  The lock releases are
recorded in the order the code performs them: target bucket, donor
bucket, global. -/
def bgetMiss (ticks : Nat) (s : BCache) (dev blockno : Nat) : BgetOut :=
  let h := hash_val blockno
  match scanBucket s h dev blockno with
  | some id =>
    { res := some id
      s := { s with bufs := updF s.bufs id (hitBuf ticks (s.bufs id)) }
      trace := [LockEv.acqGlobal, LockEv.acqBucket h, LockEv.relBucket h,
                LockEv.relGlobal, LockEv.acqSleep id] }
  | none =>
    let sc := victimScan s h 0 NUM_BUCKET
    match sc.2 with
    | some (i, id) =>
      { res := some id
        s := { bufs := updF s.bufs id
                 ({ dev := dev, blockno := blockno, valid := false, refcnt := 1,
                    lru_timestamp := (s.bufs id).lru_timestamp, holding := true,
                    data := (s.bufs id).data })
               buckets := fun j =>
                 if j = h then id :: s.buckets h
                 else if j = i then (s.buckets i).erase id
                 else s.buckets j }
        trace := [LockEv.acqGlobal, LockEv.acqBucket h] ++ sc.1 ++
                 [LockEv.relBucket h, LockEv.relBucket i, LockEv.relGlobal,
                  LockEv.acqSleep id] }
    | none =>
      { res := none, s := s
        trace := [LockEv.acqGlobal, LockEv.acqBucket h] ++ sc.1 }

/-- `bget` from bio.c, sequential (interference-free) execution: the
fast-path scan under the target bucket's lock, then, on a miss, the miss
path. -/
def bget (ticks : Nat) (s : BCache) (dev blockno : Nat) : BgetOut :=
  let h := hash_val blockno
  match scanBucket s h dev blockno with
  | some id =>
    { res := some id
      s := { s with bufs := updF s.bufs id (hitBuf ticks (s.bufs id)) }
      trace := [LockEv.acqBucket h, LockEv.relBucket h, LockEv.acqSleep id] }
  | none =>
    let o := bgetMiss ticks s dev blockno
    { o with trace := [LockEv.acqBucket h, LockEv.relBucket h] ++ o.trace }

/-- Result of `bread`: returned buffer id (`none` propagates the `bget`
panic), new cache state, and whether a disk read was issued. -/
structure BreadOut where
  res : Option Nat
  s : BCache
  didRead : Bool

/-- `bread` from bio.c lines 148-159: get the buffer via `bget`; issue the
disk read (`virtio_disk_rw(b, 0)`) and set `valid` only when the returned
buffer's `valid` flag is clear.  `disk` maps `(dev, blockno)` to the block
content delivered by the disk. -/
def bread (ticks : Nat) (disk : Nat → Nat → Nat) (s : BCache) (dev blockno : Nat) :
    BreadOut :=
  let o := bget ticks s dev blockno
  match o.res with
  | none => { res := none, s := o.s, didRead := false }
  | some id =>
    if (o.s.bufs id).valid then { res := some id, s := o.s, didRead := false }
    else
      let b2 : Buf := { o.s.bufs id with data := disk dev blockno, valid := true }
      { res := some id
        s := { o.s with bufs := updF o.s.bufs id b2 }
        didRead := true }

/-- `bwrite` from bio.c lines 162-168: `none` models `panic("bwrite")`
when the caller does not hold the buffer's sleep lock; otherwise the
buffer content is written through to the disk image. -/
def bwrite (s : BCache) (disk : Nat → Nat → Nat) (id : Nat) :
    Option (Nat → Nat → Nat) :=
  if (s.bufs id).holding then
    some (fun d bn =>
      if d = (s.bufs id).dev ∧ bn = (s.bufs id).blockno then (s.bufs id).data
      else disk d bn)
  else none

/-- `brelse` from bio.c lines 172-193: `none` models `panic("brelse")`
when the sleep lock is not held.  Otherwise release the sleep lock,
decrement `refcnt` (wrapping `uint`), and exactly when the new count is 0
move the buffer to the most-recently-used position (`head.next`) of its
bucket. -/
def brelse (s : BCache) (id : Nat) : Option BCache :=
  if (s.bufs id).holding then
    let b := s.bufs id
    let c := (b.refcnt + (UINT32 - 1)) % UINT32
    let h := hash_val b.blockno
    let s1 : BCache := { s with bufs := updF s.bufs id ({ b with holding := false, refcnt := c }) }
    if c = 0 then
      some { s1 with buckets := fun j =>
               if j = h then id :: (s1.buckets h).erase id else s1.buckets j }
    else some s1
  else none

/-- `bpin` from bio.c lines 195-202: increment `refcnt` and refresh
`lru_timestamp` under the bucket lock. -/
def bpin (ticks : Nat) (s : BCache) (id : Nat) : BCache :=
  let b2 : Buf := { s.bufs id with refcnt := ((s.bufs id).refcnt + 1) % UINT32,
                                   lru_timestamp := ticks }
  { s with bufs := updF s.bufs id b2 }

/-- `bunpin` from bio.c lines 204-210: decrement `refcnt` (wrapping
`uint`) under the bucket lock. -/
def bunpin (s : BCache) (id : Nat) : BCache :=
  let b2 : Buf := { s.bufs id with refcnt := ((s.bufs id).refcnt + (UINT32 - 1)) % UINT32 }
  { s with bufs := updF s.bufs id b2 }

/-- Step function for the count of non-target bucket locks held. -/
def ntStep (h : Nat) (n : Nat) (e : LockEv) : Nat :=
  match e with
  | LockEv.acqBucket i => if i = h then n else n + 1
  | LockEv.relBucket i => if i = h then n else n - 1
  | _ => n

/-- Checks along a lock trace that the number of non-target bucket locks
held simultaneously never exceeds 1, starting from `n` already held. -/
def ntOk (h : Nat) (n : Nat) : List LockEv → Bool
  | [] => true
  | e :: tr => decide (ntStep h n e ≤ 1) && ntOk h (ntStep h n e) tr

/-- Number of non-target bucket locks still held after a trace. -/
def ntCount (h : Nat) (n : Nat) (tr : List LockEv) : Nat :=
  tr.foldl (ntStep h) n

/-- A copy of the cache state with every buffer's `lru_timestamp`
rewritten by `f`; used to state that eviction ignores the timestamps. -/
def retime (s : BCache) (f : Nat → Nat) : BCache :=
  { s with bufs := fun k => { s.bufs k with lru_timestamp := f k } }

/-- The subsequence of lock-release events of a trace, in order. -/
def releaseSeq : List LockEv → List LockEv
  | [] => []
  | e :: tr =>
    match e with
    | LockEv.relBucket i => LockEv.relBucket i :: releaseSeq tr
    | LockEv.relGlobal => LockEv.relGlobal :: releaseSeq tr
    | _ => releaseSeq tr

/-! ## Concrete states used by witnesses and counterexamples -/

/-- Cache state whose only reference-count-zero buffer sits in bucket 0:
buffer 0 has key `(0, 13)` (bucket 0), `refcnt = 0`; no other buffer is
linked anywhere. -/
def exA : BCache :=
  { bufs := fun _ => { dev := 0, blockno := 13, valid := true, refcnt := 0,
                       lru_timestamp := 7, holding := false, data := 100 }
    buckets := fun j => if j = 0 then [0] else [] }

/-- Cache state with two evictable buffers outside bucket 0: buffer 1
(bucket 1, `refcnt = 0`, timestamp 9) and buffer 2 (bucket 2,
`refcnt = 0`, timestamp 5); bucket 0 is empty. -/
def exB : BCache :=
  { bufs := fun k =>
      if k = 1 then { dev := 0, blockno := 1, valid := true, refcnt := 0,
                      lru_timestamp := 9, holding := false, data := 11 }
      else if k = 2 then { dev := 0, blockno := 2, valid := true, refcnt := 0,
                           lru_timestamp := 5, holding := false, data := 22 }
      else { dev := 0, blockno := 3, valid := true, refcnt := 1,
             lru_timestamp := 0, holding := false, data := 33 }
    buckets := fun j => if j = 1 then [1] else if j = 2 then [2] else [] }

/-- Cache state for hit and release scenarios: buffer 3 has key `(2, 13)`
(bucket 0), `refcnt = 4`, lock not held; buffer 4 has key `(0, 4)`
(bucket 4), `refcnt = 1`, sleep lock held. -/
def exC : BCache :=
  { bufs := fun k =>
      if k = 3 then { dev := 2, blockno := 13, valid := true, refcnt := 4,
                      lru_timestamp := 3, holding := false, data := 55 }
      else if k = 4 then { dev := 0, blockno := 4, valid := true, refcnt := 1,
                           lru_timestamp := 2, holding := true, data := 44 }
      else { dev := 9, blockno := 5, valid := true, refcnt := 2,
             lru_timestamp := 0, holding := false, data := 0 }
    buckets := fun j => if j = 0 then [3] else if j = 4 then [4] else [] }

/-- A constant disk image for witnesses. -/
def disk0 : Nat → Nat → Nat := fun _ _ => 42

/-- Allocator state with an empty free list and every page allocated
once. -/
def exK0 : Kmem :=
  { freelist := [], ref_counter := fun _ => 1, mem := fun _ => 0 }

/-- Allocator state with an empty free list and every reference count
zero (the pre-seeding state). -/
def exKz : Kmem :=
  { freelist := [], ref_counter := fun _ => 0, mem := fun _ => 0 }

/-- Allocator state whose free list holds exactly the first managed page;
every other page is allocated once. -/
def exK1 : Kmem :=
  { freelist := [KERNBASE], ref_counter := fun i => if i = 0 then 0 else 1,
    mem := fun _ => 0 }

/-! ## General lemmas -/

theorem find?_first {α : Type} (p : α → Bool) :
    ∀ (l : List α) (a : α), l.find? p = some a →
      p a = true ∧ ∃ l1 l2, l = l1 ++ a :: l2 ∧ ∀ x ∈ l1, p x = false
  | [], a, h => by simp at h
  | b :: t, a, h => by
    by_cases hb : p b = true
    · rw [List.find?_cons_of_pos _ hb] at h
      obtain rfl : b = a := by injection h
      exact ⟨hb, [], t, rfl, by simp⟩
    · rw [List.find?_cons_of_neg _ hb] at h
      obtain ⟨hpa, l1, l2, hdec, hall⟩ := find?_first p t a h
      refine ⟨hpa, b :: l1, l2, by rw [hdec] ; rfl, ?_⟩
      intro x hx
      rcases List.mem_cons.mp hx with rfl | hx2
      · simpa using hb
      · exact hall x hx2

theorem find?_congr {α : Type} (p q : α → Bool) :
    ∀ (l : List α), (∀ x ∈ l, p x = q x) → l.find? p = l.find? q
  | [], _ => rfl
  | b :: t, hpq => by
    have hb := hpq b (List.mem_cons_self b t)
    by_cases h : p b = true
    · rw [List.find?_cons_of_pos _ h, List.find?_cons_of_pos _ (hb ▸ h)]
    · rw [List.find?_cons_of_neg _ h, List.find?_cons_of_neg _ (hb ▸ h)]
      exact find?_congr p q t (fun x hx => hpq x (List.mem_cons_of_mem b hx))

/-! ## Allocator lemmas -/

theorem pgsize_dvd_kernbase : PGSIZE ∣ KERNBASE :=
  ⟨524288, by norm_num [PGSIZE, KERNBASE]⟩

theorem pa2idx_inj {pa pb : Nat} (hpa : pa % PGSIZE = 0) (hka : KERNBASE ≤ pa)
    (hpb : pb % PGSIZE = 0) (hkb : KERNBASE ≤ pb) (h : PA2IDX pa = PA2IDX pb) :
    pa = pb := by
  obtain ⟨ka, hka2⟩ := Nat.dvd_sub' (Nat.dvd_of_mod_eq_zero hpa) pgsize_dvd_kernbase
  obtain ⟨kb, hkb2⟩ := Nat.dvd_sub' (Nat.dvd_of_mod_eq_zero hpb) pgsize_dvd_kernbase
  have hpos : 0 < PGSIZE := by norm_num [PGSIZE]
  unfold PA2IDX at h
  rw [hka2, hkb2, Nat.mul_div_cancel_left _ hpos, Nat.mul_div_cancel_left _ hpos] at h
  have h2 : pa - KERNBASE = pb - KERNBASE := by rw [hka2, hkb2, h]
  omega

theorem kalloc_preserves (endAddr : Nat) (s : Kmem) (hK : KERNBASE ≤ endAddr)
    (hwf : KmemWf endAddr s) (hinv : RefInv endAddr s) :
    KmemWf endAddr (kalloc s).2 ∧ RefInv endAddr (kalloc s).2 ∧
      ∀ p, (kalloc s).1 = some p → validPA endAddr p ∧ p ∉ (kalloc s).2.freelist ∧
        (kalloc s).2.ref_counter (PA2IDX p) = 1 := by
  obtain ⟨hnd, hmem⟩ := hwf
  cases hfl : s.freelist with
  | nil =>
    simp only [kalloc, hfl]
    exact ⟨⟨hfl ▸ hnd, hfl ▸ hmem⟩, hinv, by simp⟩
  | cons r rest =>
    have hvr : validPA endAddr r := hmem r (by rw [hfl] ; exact List.mem_cons_self r rest)
    rw [hfl] at hnd
    have hnr : r ∉ rest := (List.nodup_cons.mp hnd).1
    have hndr : rest.Nodup := (List.nodup_cons.mp hnd).2
    simp only [kalloc, hfl]
    refine ⟨⟨hndr, ?_⟩, ?_, ?_⟩
    · intro pa hpa
      exact hmem pa (by rw [hfl] ; exact List.mem_cons_of_mem r hpa)
    · intro pa hv
      by_cases hidx : PA2IDX pa = PA2IDX r
      · have hpar : pa = r :=
          pa2idx_inj hv.1 (le_trans hK hv.2.1) hvr.1 (le_trans hK hvr.2.1) hidx
        subst hpar
        simp only [hidx, if_pos rfl]
        constructor
        · intro hh
          exact absurd hh (by norm_num)
        · intro hh
          exact absurd hh hnr
      · simp only [if_neg hidx]
        have hne : pa ≠ r := by
          intro hh
          exact hidx (by rw [hh])
        have := hinv pa hv
        rw [hfl] at this
        rw [this]
        simp [List.mem_cons, hne]
    · intro p hp
      obtain rfl : r = p := by injection hp
      exact ⟨hvr, hnr, by simp⟩

theorem kfree_preserves (endAddr : Nat) (s : Kmem) (pa : Nat) (hK : KERNBASE ≤ endAddr)
    (hwf : KmemWf endAddr s) (hinv : RefInv endAddr s) (hv : validPA endAddr pa)
    (hc : 1 ≤ s.ref_counter (PA2IDX pa)) :
    ∃ s', kfree endAddr s pa = some s' ∧ KmemWf endAddr s' ∧ RefInv endAddr s' ∧
      s'.ref_counter (PA2IDX pa) =
        (if s.ref_counter (PA2IDX pa) = 1 then 0 else s.ref_counter (PA2IDX pa) - 1) ∧
      (pa ∈ s'.freelist ↔ s.ref_counter (PA2IDX pa) = 1) ∧
      (s.ref_counter (PA2IDX pa) = 1 → s'.freelist = pa :: s.freelist) ∧
      (s.ref_counter (PA2IDX pa) ≠ 1 → s'.freelist = s.freelist) := by
  obtain ⟨hal, hge, hlt⟩ := hv
  obtain ⟨hnd, hmem⟩ := hwf
  have hguard : ¬ (pa % PGSIZE ≠ 0 ∨ pa < endAddr ∨ PHYSTOP ≤ pa) := by
    push_neg
    exact ⟨hal, hge, hlt⟩
  have hnotmem : pa ∉ s.freelist := by
    intro hmm
    have := (hinv pa ⟨hal, hge, hlt⟩).mpr hmm
    omega
  by_cases hone : s.ref_counter (PA2IDX pa) = 1
  · refine ⟨_, by simp only [kfree, if_neg hguard] ; rw [if_pos (by omega)], ?_, ?_, ?_, ?_, ?_, ?_⟩
    · exact ⟨List.nodup_cons.mpr ⟨hnotmem, hnd⟩,
        by
          intro pb hpb
          rcases List.mem_cons.mp hpb with rfl | hpb2
          · exact ⟨hal, hge, hlt⟩
          · exact hmem pb hpb2⟩
    · intro pb hvb
      by_cases hidx : PA2IDX pb = PA2IDX pa
      · have hpq : pb = pa :=
          pa2idx_inj hvb.1 (le_trans hK hvb.2.1) hal (le_trans hK hge) hidx
        subst hpq
        simp [hidx]
      · have hne : pb ≠ pa := by
          intro hh
          exact hidx (by rw [hh])
        simp only [if_neg hidx]
        rw [hinv pb hvb]
        simp [List.mem_cons, hne]
    · simp [hone]
    · simp [hone]
    · intro _
      rfl
    · intro hh
      exact absurd hone hh
  · have hch : ¬ (s.ref_counter (PA2IDX pa) - 1 ≤ 0) := by omega
    refine ⟨_, by simp only [kfree, if_neg hguard] ; rw [if_neg hch], ?_, ?_, ?_, ?_, ?_, ?_⟩
    · exact ⟨hnd, hmem⟩
    · intro pb hvb
      by_cases hidx : PA2IDX pb = PA2IDX pa
      · have hpq : pb = pa :=
          pa2idx_inj hvb.1 (le_trans hK hvb.2.1) hal (le_trans hK hge) hidx
        subst hpq
        simp only [hidx, if_pos rfl]
        constructor
        · intro hh
          omega
        · intro hh
          exact absurd hh hnotmem
      · simp only [if_neg hidx]
        exact hinv pb hvb
    · simp [hone]
    · simp [hnotmem, hone]
    · intro hh
      exact absurd hh hone
    · intro _
      rfl

theorem incref_preserves (endAddr : Nat) (s : Kmem) (pa : Nat) (hK : KERNBASE ≤ endAddr)
    (hwf : KmemWf endAddr s) (hinv : RefInv endAddr s) (hv : validPA endAddr pa)
    (hc : 1 ≤ s.ref_counter (PA2IDX pa)) :
    (increase_ref_counter s pa).freelist = s.freelist ∧
    (increase_ref_counter s pa).ref_counter (PA2IDX pa) = s.ref_counter (PA2IDX pa) + 1 ∧
    KmemWf endAddr (increase_ref_counter s pa) ∧
    RefInv endAddr (increase_ref_counter s pa) := by
  refine ⟨rfl, by simp [increase_ref_counter], hwf, ?_⟩
  intro pb hvb
  show (if PA2IDX pb = PA2IDX pa then s.ref_counter (PA2IDX pa) + 1
        else s.ref_counter (PA2IDX pb)) = 0 ↔ pb ∈ s.freelist
  by_cases hidx : PA2IDX pb = PA2IDX pa
  · have hpq : pb = pa :=
      pa2idx_inj hvb.1 (le_trans hK hvb.2.1) hv.1 (le_trans hK hv.2.1) hidx
    subst hpq
    simp only [if_pos hidx]
    have hnm : pb ∉ s.freelist := by
      intro hmm
      have := (hinv pb hvb).mpr hmm
      omega
    constructor
    · intro hh
      omega
    · intro hh
      exact absurd hh hnm
  · simp only [if_neg hidx]
    exact hinv pb hvb

/-! ## Claim C4 -/

/-- C4: every PageAllocator operation preserves the invariant that a
managed page with reference count 0 is in the free list and a page with
positive count is not: `kalloc` removes the returned page from the free
list while setting its count to 1, `kfree` (on an allocated page) pushes
the page onto the free list exactly when its count reaches zero, and
`increase_ref_counter` on an allocated page never touches the free
list. -/
theorem C4_refcount_invariant (endAddr : Nat) (s : Kmem) (pa : Nat)
    (hK : KERNBASE ≤ endAddr) (hwf : KmemWf endAddr s) (hinv : RefInv endAddr s) :
    (KmemWf endAddr (kalloc s).2 ∧ RefInv endAddr (kalloc s).2 ∧
      ∀ p, (kalloc s).1 = some p →
        p ∉ (kalloc s).2.freelist ∧ (kalloc s).2.ref_counter (PA2IDX p) = 1) ∧
    (validPA endAddr pa → 1 ≤ s.ref_counter (PA2IDX pa) →
      ∃ s', kfree endAddr s pa = some s' ∧ KmemWf endAddr s' ∧ RefInv endAddr s' ∧
        (pa ∈ s'.freelist ↔ s.ref_counter (PA2IDX pa) = 1)) ∧
    (validPA endAddr pa → 1 ≤ s.ref_counter (PA2IDX pa) →
      (increase_ref_counter s pa).freelist = s.freelist ∧
      KmemWf endAddr (increase_ref_counter s pa) ∧
      RefInv endAddr (increase_ref_counter s pa)) := by
  refine ⟨?_, ?_, ?_⟩
  · obtain ⟨h1, h2, h3⟩ := kalloc_preserves endAddr s hK hwf hinv
    exact ⟨h1, h2, fun p hp => ⟨(h3 p hp).2.1, (h3 p hp).2.2⟩⟩
  · intro hv hc
    obtain ⟨s', he, hw, hi, _, hm, _, _⟩ := kfree_preserves endAddr s pa hK hwf hinv hv hc
    exact ⟨s', he, hw, hi, hm⟩
  · intro hv hc
    obtain ⟨h1, _, h3, h4⟩ := incref_preserves endAddr s pa hK hwf hinv hv hc
    exact ⟨h1, h3, h4⟩

/-- Witness for C4 at a concrete state: the free list is empty and every
page is allocated once; freeing the first managed page puts it in the
free list. -/
theorem C4_refcount_invariant_witness :
    KmemWf KERNBASE exK0 ∧ RefInv KERNBASE exK0 ∧
    ∃ s', kfree KERNBASE exK0 KERNBASE = some s' ∧
      (KERNBASE ∈ s'.freelist ↔ exK0.ref_counter (PA2IDX KERNBASE) = 1) := by
  have hwf : KmemWf KERNBASE exK0 := ⟨List.nodup_nil, by simp [exK0]⟩
  have hinv : RefInv KERNBASE exK0 := by
    intro pa hv
    simp [exK0]
  refine ⟨hwf, hinv, ?_⟩
  obtain ⟨s', h1, _, _, h4⟩ :=
    (C4_refcount_invariant KERNBASE exK0 KERNBASE le_rfl hwf hinv).2.1
      (by decide) (by norm_num [exK0])
  exact ⟨s', h1, h4⟩

/-! ## Claim C5 -/

/-- C5: reference-count round trip.  For a page `p` returned by `kalloc`,
an immediate `kfree` returns it to the free pool exactly once (its count
drops to 0 and it appears in the free list exactly once); and `kalloc`
followed by `increase_ref_counter` followed by two `kfree` calls leaves
the page allocated (count 1, not in the free list) after the first
`kfree` and freed (count 0, in the free list) after the second. -/
theorem C5_roundtrip (endAddr : Nat) (s : Kmem) (p : Nat)
    (hK : KERNBASE ≤ endAddr) (hwf : KmemWf endAddr s) (hinv : RefInv endAddr s)
    (halloc : (kalloc s).1 = some p) :
    (∃ t, kfree endAddr (kalloc s).2 p = some t ∧
       t.freelist.count p = 1 ∧ t.ref_counter (PA2IDX p) = 0) ∧
    (∃ t1, kfree endAddr (increase_ref_counter (kalloc s).2 p) p = some t1 ∧
       t1.ref_counter (PA2IDX p) = 1 ∧ p ∉ t1.freelist ∧
       ∃ t2, kfree endAddr t1 p = some t2 ∧
         t2.ref_counter (PA2IDX p) = 0 ∧ p ∈ t2.freelist ∧
         t2.freelist.count p = 1) := by
  obtain ⟨hwf1, hinv1, hps⟩ := kalloc_preserves endAddr s hK hwf hinv
  obtain ⟨hvp, hnm1, hc1⟩ := hps p halloc
  constructor
  · obtain ⟨t, he, hw, hi, hctr, hm, hfl, _⟩ :=
      kfree_preserves endAddr (kalloc s).2 p hK hwf1 hinv1 hvp (by rw [hc1])
    refine ⟨t, he, ?_, ?_⟩
    · rw [hfl (by rw [hc1])]
      rw [List.count_cons_self, List.count_eq_zero.mpr hnm1]
    · rw [hctr, hc1]
      norm_num
  · obtain ⟨hifl, hictr, hiwf, hiinv⟩ :=
      incref_preserves endAddr (kalloc s).2 p hK hwf1 hinv1 hvp (by rw [hc1])
    have hc2 : (increase_ref_counter (kalloc s).2 p).ref_counter (PA2IDX p) = 2 := by
      rw [hictr, hc1]
      norm_num
    obtain ⟨t1, he1, hw1, hi1, hctr1, _, _, hfl1⟩ :=
      kfree_preserves endAddr (increase_ref_counter (kalloc s).2 p) p hK hiwf hiinv hvp
        (by rw [hc2] ; norm_num)
    have hctr1v : t1.ref_counter (PA2IDX p) = 1 := by
      rw [hctr1, hc2]
      norm_num
    have hfl1v : t1.freelist = (kalloc s).2.freelist := by
      rw [hfl1 (by rw [hc2] ; norm_num), hifl]
    refine ⟨t1, he1, hctr1v, by rw [hfl1v] ; exact hnm1, ?_⟩
    obtain ⟨t2, he2, hw2, hi2, hctr2, hm2, hfl2, _⟩ :=
      kfree_preserves endAddr t1 p hK hw1 hi1 hvp (by rw [hctr1v])
    refine ⟨t2, he2, ?_, ?_, ?_⟩
    · rw [hctr2, hctr1v]
      norm_num
    · exact hm2.mpr hctr1v
    · rw [hfl2 hctr1v, hfl1v]
      rw [List.count_cons_self, List.count_eq_zero.mpr hnm1]

/-- Witness for C5 at a concrete state whose free list holds exactly the
first managed page. -/
theorem C5_roundtrip_witness :
    (kalloc exK1).1 = some KERNBASE ∧
    ∃ t, kfree KERNBASE (kalloc exK1).2 KERNBASE = some t ∧
      t.freelist.count KERNBASE = 1 ∧ t.ref_counter (PA2IDX KERNBASE) = 0 := by
  have hwf : KmemWf KERNBASE exK1 := by
    constructor
    · simp [exK1]
    · intro pa hpa
      simp only [exK1] at hpa
      rcases List.mem_singleton.mp hpa with rfl
      decide
  have hinv : RefInv KERNBASE exK1 := by
    intro pa hv
    obtain ⟨hal, hge, hlt⟩ := hv
    show (if PA2IDX pa = 0 then (0 : Int) else 1) = 0 ↔ pa ∈ [KERNBASE]
    by_cases hidx : PA2IDX pa = 0
    · have hpe : pa = KERNBASE := by
        have : PA2IDX KERNBASE = 0 := by decide
        exact pa2idx_inj hal hge (by decide) le_rfl (by rw [hidx, this])
      subst hpe
      simp [hidx]
    · simp only [if_neg hidx]
      constructor
      · intro hh
        exact absurd hh (by norm_num)
      · intro hh
        rcases List.mem_singleton.mp hh with rfl
        exact absurd (by decide : PA2IDX KERNBASE = 0) hidx
  have halloc : (kalloc exK1).1 = some KERNBASE := by decide
  exact ⟨halloc,
    (C5_roundtrip KERNBASE exK1 KERNBASE le_rfl hwf hinv halloc).1⟩

/-! ## Claim C7 -/

/-- C7: `kalloc` returns the distinguished exhaustion indicator (`none`,
the C null pointer), not a fatal stop, exactly when the free list is
empty; on success it pops one page from the free list, fills the page
with the fixed junk pattern 5 and sets its reference count to exactly 1;
and after a `kfree` returns a page to an exhausted pool, a subsequent
`kalloc` succeeds again. -/
theorem C7_alloc_exhaustion (endAddr : Nat) (s : Kmem) (pa : Nat) :
    ((kalloc s).1 = none ↔ s.freelist = []) ∧
    (∀ r rest, s.freelist = r :: rest →
      (kalloc s).1 = some r ∧ (kalloc s).2.freelist = rest ∧
      (kalloc s).2.ref_counter (PA2IDX r) = 1 ∧
      ∀ off, off < PGSIZE → (kalloc s).2.mem (r + off) = 5) ∧
    (s.freelist = [] → validPA endAddr pa → s.ref_counter (PA2IDX pa) ≤ 1 →
      ∃ s', kfree endAddr s pa = some s' ∧ s'.freelist = [pa] ∧
        (kalloc s').1 = some pa) := by
  refine ⟨?_, ?_, ?_⟩
  · cases hfl : s.freelist with
    | nil => simp [kalloc, hfl]
    | cons r rest => simp [kalloc, hfl]
  · intro r rest hfl
    refine ⟨by simp [kalloc, hfl], by simp [kalloc, hfl], by simp [kalloc, hfl], ?_⟩
    intro off hoff
    simp only [kalloc, hfl, memsetRange]
    rw [if_pos ⟨Nat.le_add_right r off, by omega⟩]
  · intro hfl hv hcle
    obtain ⟨hal, hge, hlt⟩ := hv
    have hguard : ¬ (pa % PGSIZE ≠ 0 ∨ pa < endAddr ∨ PHYSTOP ≤ pa) := by
      push_neg
      exact ⟨hal, hge, hlt⟩
    refine ⟨_, by simp only [kfree, if_neg hguard] ; rw [if_pos (by omega)], ?_, ?_⟩
    · show pa :: s.freelist = [pa]
      rw [hfl]
    · rfl

/-- Witness for C7 at the exhausted state `exK0`: freeing one page makes
the next `kalloc` succeed. -/
theorem C7_alloc_exhaustion_witness :
    exK0.freelist = [] ∧ validPA KERNBASE KERNBASE ∧
    exK0.ref_counter (PA2IDX KERNBASE) ≤ 1 ∧
    ∃ s', kfree KERNBASE exK0 KERNBASE = some s' ∧ s'.freelist = [KERNBASE] ∧
      (kalloc s').1 = some KERNBASE := by
  exact ⟨rfl, by decide, by norm_num [exK0],
    (C7_alloc_exhaustion KERNBASE exK0 KERNBASE).2.2 rfl (by decide) (by norm_num [exK0])⟩

/-! ## Claim C10 -/

/-- C10: calling `kfree` on a correctly aligned, in-range page whose
reference count is already 0 — as the bulk seeding via `kinit`/`freerange`
does for every managed page, and as a double free of an already-free page
would — still takes the junk-fill-and-push branch: the page is linked onto
the free list and its reference count is reset to exactly 0; moreover
`kfree` never leaves a reference count below zero. -/
theorem C10_free_at_zero (endAddr : Nat) (s : Kmem) (pa : Nat)
    (hv : validPA endAddr pa) (h0 : s.ref_counter (PA2IDX pa) = 0) :
    ∃ s', kfree endAddr s pa = some s' ∧
      s'.freelist = pa :: s.freelist ∧
      s'.ref_counter (PA2IDX pa) = 0 ∧
      (∀ off, off < PGSIZE → s'.mem (pa + off) = 1) ∧
      (∀ (t t' : Kmem) (q : Nat), kfree endAddr t q = some t' →
        0 ≤ t'.ref_counter (PA2IDX q)) := by
  obtain ⟨hal, hge, hlt⟩ := hv
  have hguard : ¬ (pa % PGSIZE ≠ 0 ∨ pa < endAddr ∨ PHYSTOP ≤ pa) := by
    push_neg
    exact ⟨hal, hge, hlt⟩
  refine ⟨_, by simp only [kfree, if_neg hguard] ; rw [if_pos (by omega)], rfl, by simp, ?_, ?_⟩
  · intro off hoff
    show memsetRange s.mem pa 1 PGSIZE (pa + off) = 1
    rw [memsetRange, if_pos ⟨Nat.le_add_right pa off, by omega⟩]
  · intro t t' q hfr
    simp only [kfree] at hfr
    by_cases hg : q % PGSIZE ≠ 0 ∨ q < endAddr ∨ PHYSTOP ≤ q
    · rw [if_pos hg] at hfr
      exact absurd hfr (by simp)
    · rw [if_neg hg] at hfr
      by_cases hcz : t.ref_counter (PA2IDX q) - 1 ≤ 0
      · rw [if_pos hcz] at hfr
        obtain rfl := Option.some.inj hfr
        simp
      · rw [if_neg hcz] at hfr
        obtain rfl := Option.some.inj hfr
        simp
        omega

/-- Witness for C10 at the all-zero-counter state `exKz`. -/
theorem C10_free_at_zero_witness :
    validPA KERNBASE KERNBASE ∧ exKz.ref_counter (PA2IDX KERNBASE) = 0 ∧
    ∃ s', kfree KERNBASE exKz KERNBASE = some s' ∧
      s'.freelist = KERNBASE :: exKz.freelist ∧ s'.ref_counter (PA2IDX KERNBASE) = 0 := by
  refine ⟨by decide, by norm_num [exKz], ?_⟩
  obtain ⟨s', h1, h2, h3, _, _⟩ :=
    C10_free_at_zero KERNBASE exKz KERNBASE (by decide) (by norm_num [exKz])
  exact ⟨s', h1, h2, h3⟩

/-! ## Eviction-scan lemmas -/

theorem victimScan_found (s : BCache) (h : Nat) :
    ∀ (fuel i0 : Nat) (tr : List LockEv) (i id : Nat),
      victimScan s h i0 fuel = (tr, some (i, id)) →
      i0 ≤ i ∧ i < i0 + fuel ∧ i ≠ h ∧
      (s.buckets i).reverse.find? (fun x => (s.bufs x).refcnt == 0) = some id ∧
      (∀ j, i0 ≤ j → j < i → j ≠ h →
        (s.buckets j).reverse.find? (fun x => (s.bufs x).refcnt == 0) = none) ∧
      (∀ e ∈ tr, ∃ j, i0 ≤ j ∧ j ≤ i ∧ j ≠ h ∧
        (e = LockEv.acqBucket j ∨ (e = LockEv.relBucket j ∧ j < i))) ∧
      (∀ j, i0 ≤ j → j ≤ i → j ≠ h → LockEv.acqBucket j ∈ tr) := by
  intro fuel
  induction fuel with
  | zero =>
    intro i0 tr i id heq
    simp [victimScan] at heq
  | succ m ih =>
    intro i0 tr i id heq
    rw [victimScan] at heq
    by_cases hih : i0 = h
    · rw [if_pos hih] at heq
      obtain ⟨h1, h2, h3, h4, h5, h6, h7⟩ := ih (i0 + 1) tr i id heq
      refine ⟨by omega, by omega, h3, h4, ?_, ?_, ?_⟩
      · intro j hj1 hj2 hj3
        rcases Nat.eq_or_lt_of_le hj1 with rfl | hlt
        · exact absurd hih hj3
        · exact h5 j (by omega) hj2 hj3
      · intro e he
        obtain ⟨j, hj1, hj2, hj3, hj4⟩ := h6 e he
        exact ⟨j, by omega, hj2, hj3, hj4⟩
      · intro j hj1 hj2 hj3
        rcases Nat.eq_or_lt_of_le hj1 with rfl | hlt
        · exact absurd hih hj3
        · exact h7 j (by omega) hj2 hj3
    · rw [if_neg hih] at heq
      cases hf : (s.buckets i0).reverse.find? (fun x => (s.bufs x).refcnt == 0) with
      | some id2 =>
        rw [hf] at heq
        simp only [Prod.mk.injEq, Option.some.injEq] at heq
        obtain ⟨htr, hi, hid⟩ := heq
        subst htr
        subst hi
        subst hid
        refine ⟨le_rfl, by omega, hih, hf, ?_, ?_, ?_⟩
        · intro j hj1 hj2 _
          omega
        · intro e he
          rcases List.mem_singleton.mp he with rfl
          exact ⟨i0, le_rfl, le_rfl, hih, Or.inl rfl⟩
        · intro j hj1 hj2 _
          have : j = i0 := by omega
          subst this
          exact List.mem_singleton.mpr rfl
      | none =>
        rw [hf] at heq
        simp only [Prod.mk.injEq] at heq
        obtain ⟨htr, hres⟩ := heq
        have hrec : victimScan s h (i0 + 1) m =
            ((victimScan s h (i0 + 1) m).1, some (i, id)) := by
          rw [← hres]
        obtain ⟨h1, h2, h3, h4, h5, h6, h7⟩ :=
          ih (i0 + 1) (victimScan s h (i0 + 1) m).1 i id hrec
        refine ⟨by omega, by omega, h3, h4, ?_, ?_, ?_⟩
        · intro j hj1 hj2 hj3
          rcases Nat.eq_or_lt_of_le hj1 with rfl | hlt
          · exact hf
          · exact h5 j (by omega) hj2 hj3
        · intro e he
          rw [← htr] at he
          rcases List.mem_cons.mp he with rfl | he2
          · exact ⟨i0, le_rfl, by omega, hih, Or.inl rfl⟩
          · rcases List.mem_cons.mp he2 with rfl | he3
            · exact ⟨i0, le_rfl, by omega, hih, Or.inr ⟨rfl, by omega⟩⟩
            · obtain ⟨j, hj1, hj2, hj3, hj4⟩ := h6 e he3
              exact ⟨j, by omega, hj2, hj3, hj4⟩
        · intro j hj1 hj2 hj3
          rw [← htr]
          rcases Nat.eq_or_lt_of_le hj1 with rfl | hlt
          · exact List.mem_cons_self _ _
          · exact List.mem_cons_of_mem _ (List.mem_cons_of_mem _ (h7 j (by omega) hj2 hj3))

theorem victimScan_none_iff (s : BCache) (h : Nat) :
    ∀ (fuel i0 : Nat),
      (victimScan s h i0 fuel).2 = none ↔
      (∀ j, i0 ≤ j → j < i0 + fuel → j ≠ h →
        (s.buckets j).reverse.find? (fun x => (s.bufs x).refcnt == 0) = none) := by
  intro fuel
  induction fuel with
  | zero =>
    intro i0
    constructor
    · intro _ j hj1 hj2 _
      omega
    · intro _
      rfl
  | succ m ih =>
    intro i0
    rw [victimScan]
    by_cases hih : i0 = h
    · rw [if_pos hih]
      rw [ih (i0 + 1)]
      constructor
      · intro hall j hj1 hj2 hj3
        rcases Nat.eq_or_lt_of_le hj1 with rfl | hlt
        · exact absurd hih hj3
        · exact hall j (by omega) (by omega) hj3
      · intro hall j hj1 hj2 hj3
        exact hall j (by omega) (by omega) hj3
    · rw [if_neg hih]
      cases hf : (s.buckets i0).reverse.find? (fun x => (s.bufs x).refcnt == 0) with
      | some id2 =>
        constructor
        · intro hh
          simp at hh
        · intro hall
          have := hall i0 le_rfl (by omega) hih
          rw [hf] at this
          simp at this
      | none =>
        show (victimScan s h (i0 + 1) m).2 = none ↔ _
        rw [ih (i0 + 1)]
        constructor
        · intro hall j hj1 hj2 hj3
          rcases Nat.eq_or_lt_of_le hj1 with rfl | hlt
          · exact hf
          · exact hall j (by omega) (by omega) hj3
        · intro hall j hj1 hj2 hj3
          exact hall j (by omega) (by omega) hj3

theorem ntOk_append (h : Nat) :
    ∀ (tr1 tr2 : List LockEv) (n : Nat),
      ntOk h n (tr1 ++ tr2) = (ntOk h n tr1 && ntOk h (ntCount h n tr1) tr2)
  | [], tr2, n => by simp [ntOk, ntCount]
  | e :: tr1, tr2, n => by
    show (decide (ntStep h n e ≤ 1) && ntOk h (ntStep h n e) (tr1 ++ tr2)) = _
    rw [ntOk_append h tr1 tr2 (ntStep h n e)]
    show _ = ((decide (ntStep h n e ≤ 1) && ntOk h (ntStep h n e) tr1) &&
      ntOk h (ntCount h (ntStep h n e) tr1) tr2)
    rw [Bool.and_assoc]

theorem victimScan_nt (s : BCache) (h : Nat) :
    ∀ (fuel i0 : Nat),
      ntOk h 0 (victimScan s h i0 fuel).1 = true ∧
      ntCount h 0 (victimScan s h i0 fuel).1 =
        (if (victimScan s h i0 fuel).2 = none then 0 else 1) := by
  intro fuel
  induction fuel with
  | zero =>
    intro i0
    exact ⟨rfl, rfl⟩
  | succ m ih =>
    intro i0
    rw [victimScan]
    by_cases hih : i0 = h
    · rw [if_pos hih]
      exact ih (i0 + 1)
    · rw [if_neg hih]
      cases hf : (s.buckets i0).reverse.find? (fun x => (s.bufs x).refcnt == 0) with
      | some id2 =>
        simp [ntOk, ntStep, ntCount, hih]
      | none =>
        obtain ⟨ih1, ih2⟩ := ih (i0 + 1)
        constructor
        · show (decide (ntStep h 0 (LockEv.acqBucket i0) ≤ 1) &&
            (decide (ntStep h (ntStep h 0 (LockEv.acqBucket i0)) (LockEv.relBucket i0) ≤ 1) &&
             ntOk h (ntStep h (ntStep h 0 (LockEv.acqBucket i0)) (LockEv.relBucket i0))
               (victimScan s h (i0 + 1) m).1)) = true
          simp only [ntStep, if_neg hih]
          simpa using ih1
        · show ntCount h (ntStep h (ntStep h 0 (LockEv.acqBucket i0)) (LockEv.relBucket i0))
            (victimScan s h (i0 + 1) m).1 = _
          simp only [ntStep, if_neg hih]
          exact ih2

/-! ## Claim C1 -/

/-- C1: for an `acquire` that still misses after the double-checked
re-scan, the eviction scan visits the buckets in ascending order skipping
the target bucket, holds at most one non-target bucket lock at a time,
searches each visited bucket from its least-recently-used end, and the
first buffer found with `refcnt = 0` is unlinked from its donor bucket,
relinked at the most-recently-used position of the target bucket, its key
overwritten with `(dev, blockno)`, its `valid` flag cleared and its
`refcnt` set to 1. -/
theorem C1_eviction (ticks dev blockno : Nat) (s : BCache) (i id : Nat)
    (hmiss : scanBucket s (hash_val blockno) dev blockno = none)
    (hvict : findVictim s (hash_val blockno) = some (i, id)) :
    (bgetMiss ticks s dev blockno).res = some id ∧
    i ≠ hash_val blockno ∧ i < NUM_BUCKET ∧
    (s.bufs id).refcnt = 0 ∧
    (∃ l1 l2, (s.buckets i).reverse = l1 ++ id :: l2 ∧
      ∀ x ∈ l1, (s.bufs x).refcnt ≠ 0) ∧
    (∀ j, j < i → j ≠ hash_val blockno → ∀ x ∈ s.buckets j, (s.bufs x).refcnt ≠ 0) ∧
    (bgetMiss ticks s dev blockno).s.buckets (hash_val blockno) =
      id :: s.buckets (hash_val blockno) ∧
    (bgetMiss ticks s dev blockno).s.buckets i = (s.buckets i).erase id ∧
    (∀ j, j ≠ hash_val blockno → j ≠ i →
      (bgetMiss ticks s dev blockno).s.buckets j = s.buckets j) ∧
    ((bgetMiss ticks s dev blockno).s.bufs id).dev = dev ∧
    ((bgetMiss ticks s dev blockno).s.bufs id).blockno = blockno ∧
    ((bgetMiss ticks s dev blockno).s.bufs id).valid = false ∧
    ((bgetMiss ticks s dev blockno).s.bufs id).refcnt = 1 ∧
    (∀ j, j ≤ i → j ≠ hash_val blockno →
      LockEv.acqBucket j ∈ (bgetMiss ticks s dev blockno).trace) ∧
    ntOk (hash_val blockno) 0 (bgetMiss ticks s dev blockno).trace = true := by
  have hv2 : (victimScan s (hash_val blockno) 0 NUM_BUCKET).2 = some (i, id) := hvict
  obtain ⟨h1, h2, h3, h4, h5, h6, h7⟩ :=
    victimScan_found s (hash_val blockno) NUM_BUCKET 0
      (victimScan s (hash_val blockno) 0 NUM_BUCKET).1 i id (by rw [← hv2])
  obtain ⟨hp, l1, l2, hdec, hall⟩ := find?_first _ _ _ h4
  refine ⟨?_, h3, by omega, by simpa using hp, ?_, ?_, ?_, ?_, ?_, ?_, ?_, ?_, ?_, ?_, ?_⟩
  · simp only [bgetMiss, hmiss, hv2]
  · refine ⟨l1, l2, hdec, ?_⟩
    intro x hx
    simpa using hall x hx
  · intro j hj1 hj2 x hx
    have hnone := h5 j (by omega) hj1 hj2
    have := List.find?_eq_none.mp hnone x (List.mem_reverse.mpr hx)
    simpa using this
  · simp only [bgetMiss, hmiss, hv2]
    simp
  · simp only [bgetMiss, hmiss, hv2]
    simp [h3, Ne.symm h3]
  · intro j hjh hji
    simp only [bgetMiss, hmiss, hv2]
    simp [hjh, hji]
  · simp only [bgetMiss, hmiss, hv2]
    simp [updF]
  · simp only [bgetMiss, hmiss, hv2]
    simp [updF]
  · simp only [bgetMiss, hmiss, hv2]
    simp [updF]
  · simp only [bgetMiss, hmiss, hv2]
    simp [updF]
  · intro j hj1 hj2
    simp only [bgetMiss, hmiss, hv2]
    have := h7 j (by omega) hj1 hj2
    simp only [List.cons_append, List.nil_append, List.mem_cons, List.mem_append]
    right
    right
    left
    exact this
  · have hnt := victimScan_nt s (hash_val blockno) NUM_BUCKET 0
    simp only [bgetMiss, hmiss, hv2]
    simp only [List.cons_append, List.nil_append]
    show (decide (ntStep (hash_val blockno) 0 LockEv.acqGlobal ≤ 1) &&
      (decide (ntStep (hash_val blockno) (ntStep (hash_val blockno) 0 LockEv.acqGlobal)
          (LockEv.acqBucket (hash_val blockno)) ≤ 1) &&
        ntOk (hash_val blockno)
          (ntStep (hash_val blockno) (ntStep (hash_val blockno) 0 LockEv.acqGlobal)
            (LockEv.acqBucket (hash_val blockno)))
          ((victimScan s (hash_val blockno) 0 NUM_BUCKET).1 ++
            [LockEv.relBucket (hash_val blockno), LockEv.relBucket i, LockEv.relGlobal,
             LockEv.acqSleep id]))) = true
    simp only [ntStep, eq_self_iff_true, if_true]
    rw [ntOk_append, hnt.1, hnt.2, hv2]
    simp [ntOk, ntStep, h3]

/-- Witness for C1: in state `exB` a request for block 0 (bucket 0)
misses and evicts buffer 1 from donor bucket 1. -/
theorem C1_eviction_witness :
    scanBucket exB (hash_val 0) 0 0 = none ∧
    findVictim exB (hash_val 0) = some (1, 1) ∧
    (bgetMiss 100 exB 0 0).res = some 1 :=
  ⟨by decide, by decide, (C1_eviction 100 0 0 exB 1 1 (by decide) (by decide)).1⟩

/-! ## Claim C2 -/

/-- C2 counterexample: in state `exA` the only `refcnt = 0` buffer (id 0)
sits in the target bucket 0, and the request for block 0 still ends in
`panic("bget: no buffers")` (`res = none`) — so `bget` does panic while a
buffer in the cache has `reference_count = 0`, refuting the claim that it
never panics in that situation. -/
theorem C2_counterexample :
    (bget 0 exA 0 0).res = none ∧
    0 ∈ exA.buckets (hash_val 0) ∧ (exA.bufs 0).refcnt = 0 := by
  decide

/-- C2 (amended): `bget` panics exactly when the key is not cached in the
target bucket and no buffer with `refcnt = 0` exists in any bucket OTHER
than the target bucket; a `refcnt = 0` buffer in the target bucket itself
does not prevent the panic, because the eviction scan skips the target
bucket. -/
theorem C2_panic_iff (ticks dev blockno : Nat) (s : BCache) :
    (bget ticks s dev blockno).res = none ↔
      (scanBucket s (hash_val blockno) dev blockno = none ∧
       ∀ j, j < NUM_BUCKET → j ≠ hash_val blockno →
         ∀ x ∈ s.buckets j, (s.bufs x).refcnt ≠ 0) := by
  cases hscan : scanBucket s (hash_val blockno) dev blockno with
  | some id =>
    simp only [bget, hscan]
    simp
  | none =>
    simp only [bget, hscan, bgetMiss]
    cases hv : (victimScan s (hash_val blockno) 0 NUM_BUCKET).2 with
    | some pr =>
      obtain ⟨i, id⟩ := pr
      simp only [hv]
      obtain ⟨h1, h2, h3, h4, _, _, _⟩ :=
        victimScan_found s (hash_val blockno) NUM_BUCKET 0
          (victimScan s (hash_val blockno) 0 NUM_BUCKET).1 i id (by rw [← hv])
      obtain ⟨hp, l1, l2, hdec, hall⟩ := find?_first _ _ _ h4
      have hmem : id ∈ s.buckets i := by
        rw [← List.mem_reverse, hdec]
        simp
      constructor
      · intro hh
        simp at hh
      · rintro ⟨-, hforall⟩
        exact absurd (by simpa using hp) (hforall i (by omega) h3 id hmem)
    | none =>
      simp only [hv]
      constructor
      · intro _
        refine ⟨trivial, ?_⟩
        intro j hj1 hj2 x hx
        have hfn := (victimScan_none_iff s (hash_val blockno) NUM_BUCKET 0).mp hv
          j (by omega) (by omega) hj2
        have hx2 := List.find?_eq_none.mp hfn x (List.mem_reverse.mpr hx)
        simpa using hx2
      · intro _
        trivial

/-- Witness for C2 (amended): at state `exA` the right-hand side holds
(key uncached, no `refcnt = 0` buffer outside the target bucket), so the
call panics. -/
theorem C2_panic_iff_witness : (bget 0 exA 0 0).res = none :=
  (C2_panic_iff 0 0 0 exA).mpr ⟨by decide, by decide⟩

/-! ## Claim C3 -/

theorem scanBucket_congr (s' s : BCache) (h dev blockno : Nat)
    (hb : s'.buckets h = s.buckets h)
    (hk : ∀ x ∈ s.buckets h, (s'.bufs x).dev = (s.bufs x).dev ∧
      (s'.bufs x).blockno = (s.bufs x).blockno) :
    scanBucket s' h dev blockno = scanBucket s h dev blockno := by
  unfold scanBucket
  rw [hb]
  exact find?_congr _ _ _ (fun x hx => by rw [(hk x hx).1, (hk x hx).2])

theorem bget_spec (ticks dev blockno : Nat) (s : BCache) (id : Nat)
    (h : (bget ticks s dev blockno).res = some id) :
    ((bget ticks s dev blockno).s.bufs id).dev = dev ∧
    ((bget ticks s dev blockno).s.bufs id).blockno = blockno ∧
    scanBucket (bget ticks s dev blockno).s (hash_val blockno) dev blockno = some id := by
  cases hscan : scanBucket s (hash_val blockno) dev blockno with
  | some id0 =>
    have hid : id0 = id := by
      simp only [bget, hscan] at h
      exact Option.some.inj h
    subst hid
    obtain ⟨hp, _, _, _, _⟩ := find?_first _ _ _ hscan
    simp only [Bool.and_eq_true, beq_iff_eq] at hp
    refine ⟨?_, ?_, ?_⟩
    · simp only [bget, hscan]
      simp [updF, hitBuf, hp.1]
    · simp only [bget, hscan]
      simp [updF, hitBuf, hp.2]
    · simp only [bget, hscan]
      refine Eq.trans (scanBucket_congr
        { s with bufs := updF s.bufs id0 (hitBuf ticks (s.bufs id0)) } s
        (hash_val blockno) dev blockno rfl ?_) hscan
      intro x hx
      by_cases hxid : x = id0
      · subst hxid
        simp [updF, hitBuf]
      · simp [updF, hxid]
  | none =>
    cases hv : (victimScan s (hash_val blockno) 0 NUM_BUCKET).2 with
    | none =>
      simp only [bget, hscan, bgetMiss, hv] at h
      simp at h
    | some pr =>
      obtain ⟨i, id0⟩ := pr
      simp only [bget, hscan, bgetMiss, hv] at h ⊢
      have hid : id0 = id := by simpa using h
      subst hid
      refine ⟨by simp [updF], by simp [updF], ?_⟩
      simp [scanBucket, updF, List.find?]

theorem bread_spec (ticks : Nat) (disk : Nat → Nat → Nat) (s : BCache)
    (dev blockno id : Nat) (h : (bread ticks disk s dev blockno).res = some id) :
    (bget ticks s dev blockno).res = some id ∧
    ((bread ticks disk s dev blockno).s.bufs id).valid = true ∧
    scanBucket (bread ticks disk s dev blockno).s (hash_val blockno) dev blockno = some id := by
  cases hr : (bget ticks s dev blockno).res with
  | none =>
    simp only [bread, hr] at h
    simp at h
  | some id0 =>
    obtain ⟨hdev, hbn, hscan2⟩ := bget_spec ticks dev blockno s id0 hr
    by_cases hval : ((bget ticks s dev blockno).s.bufs id0).valid = true
    · have hb : bread ticks disk s dev blockno =
          { res := some id0, s := (bget ticks s dev blockno).s, didRead := false } := by
        simp only [bread, hr, if_pos hval]
      rw [hb] at h ⊢
      obtain rfl : id0 = id := Option.some.inj h
      exact ⟨rfl, hval, hscan2⟩
    · have hb : bread ticks disk s dev blockno =
          { res := some id0,
            s := { (bget ticks s dev blockno).s with
                   bufs := updF (bget ticks s dev blockno).s.bufs id0
                     ({ (bget ticks s dev blockno).s.bufs id0 with
                        data := disk dev blockno, valid := true }) },
            didRead := true } := by
        simp only [bread, hr, if_neg hval]
      rw [hb] at h ⊢
      obtain rfl : id0 = id := Option.some.inj h
      refine ⟨rfl, by simp [updF], ?_⟩
      refine Eq.trans (scanBucket_congr
        { (bget ticks s dev blockno).s with
          bufs := updF (bget ticks s dev blockno).s.bufs id0
            ({ (bget ticks s dev blockno).s.bufs id0 with
               data := disk dev blockno, valid := true }) }
        (bget ticks s dev blockno).s
        (hash_val blockno) dev blockno rfl ?_) hscan2
      intro x hx
      by_cases hxid : x = id0
      · subst hxid
        simp [updF]
      · simp [updF, hxid]

theorem bread_hit_valid (ticks : Nat) (disk : Nat → Nat → Nat) (s2 : BCache)
    (dev blockno id : Nat)
    (hscan : scanBucket s2 (hash_val blockno) dev blockno = some id)
    (hval : (s2.bufs id).valid = true) :
    (bread ticks disk s2 dev blockno).res = some id ∧
    (bread ticks disk s2 dev blockno).didRead = false := by
  have hres : (bget ticks s2 dev blockno).res = some id := by
    simp only [bget, hscan]
  have hv2 : ((bget ticks s2 dev blockno).s.bufs id).valid = true := by
    simp only [bget, hscan]
    simp [updF, hitBuf, hval]
  simp only [bread, hres, if_pos hv2]
  constructor <;> trivial

/-- C3: on a miss, `bget` takes the global lock and then the target
bucket's lock, in that order, and re-scans the bucket; if the key was
inserted concurrently in the meantime, the call is treated as a hit
(`refcnt` incremented, recency refreshed, no eviction, no bucket change);
and because the disk read in `bread` happens only when the returned
buffer's `valid` flag is clear, a second `bread` of the same key returns
the same buffer without a second disk read. -/
theorem C3_double_checked :
    (∀ (ticks dev blockno : Nat) (s : BCache) (id : Nat),
      scanBucket s (hash_val blockno) dev blockno = some id →
      (bgetMiss ticks s dev blockno).res = some id ∧
      (bgetMiss ticks s dev blockno).s.buckets = s.buckets ∧
      ((bgetMiss ticks s dev blockno).s.bufs id).refcnt = ((s.bufs id).refcnt + 1) % UINT32 ∧
      ((bgetMiss ticks s dev blockno).s.bufs id).lru_timestamp = ticks ∧
      ((bgetMiss ticks s dev blockno).s.bufs id).valid = (s.bufs id).valid ∧
      (∀ k, k ≠ id → (bgetMiss ticks s dev blockno).s.bufs k = s.bufs k) ∧
      (bgetMiss ticks s dev blockno).trace =
        [LockEv.acqGlobal, LockEv.acqBucket (hash_val blockno),
         LockEv.relBucket (hash_val blockno), LockEv.relGlobal, LockEv.acqSleep id]) ∧
    (∀ (ticks : Nat) (disk : Nat → Nat → Nat) (s : BCache) (dev blockno id : Nat),
      (bread ticks disk s dev blockno).res = some id →
      ((bread ticks disk s dev blockno).s.bufs id).valid = true ∧
      (bread ticks disk (bread ticks disk s dev blockno).s dev blockno).res = some id ∧
      (bread ticks disk (bread ticks disk s dev blockno).s dev blockno).didRead = false) ∧
    (∀ (ticks : Nat) (disk : Nat → Nat → Nat) (s : BCache) (dev blockno : Nat),
      (bread ticks disk s dev blockno).didRead = true ↔
      ∃ id, (bget ticks s dev blockno).res = some id ∧
        ((bget ticks s dev blockno).s.bufs id).valid = false) := by
  refine ⟨?_, ?_, ?_⟩
  · intro ticks dev blockno s id hfound
    refine ⟨by simp [bgetMiss, hfound], by simp [bgetMiss, hfound],
      by simp [bgetMiss, hfound, updF, hitBuf],
      by simp [bgetMiss, hfound, updF, hitBuf],
      by simp [bgetMiss, hfound, updF, hitBuf], ?_, by simp [bgetMiss, hfound]⟩
    intro k hk
    simp [bgetMiss, hfound, updF, hk]
  · intro ticks disk s dev blockno id h
    obtain ⟨hr, hval, hscan2⟩ := bread_spec ticks disk s dev blockno id h
    obtain ⟨h2res, h2read⟩ :=
      bread_hit_valid ticks disk (bread ticks disk s dev blockno).s dev blockno id hscan2 hval
    exact ⟨hval, h2res, h2read⟩
  · intro ticks disk s dev blockno
    cases hr : (bget ticks s dev blockno).res with
    | none =>
      simp only [bread, hr]
      constructor
      · intro hh
        simp at hh
      · rintro ⟨id, hid, -⟩
        simp at hid
    | some id0 =>
      by_cases hval : ((bget ticks s dev blockno).s.bufs id0).valid = true
      · simp only [bread, hr, if_pos hval]
        constructor
        · intro hh
          simp at hh
        · rintro ⟨id, hid, hv2⟩
          obtain rfl : id0 = id := Option.some.inj hid
          rw [hval] at hv2
          simp at hv2
      · simp only [bread, hr, if_neg hval]
        constructor
        · intro _
          exact ⟨id0, rfl, by simpa using hval⟩
        · intro _
          trivial

/-- Witness for C3: in state `exC` the key `(2, 13)` is already present
in bucket 0, so the double-checked miss path treats it as a hit; and in
state `exB` reading block 0 twice issues one disk read. -/
theorem C3_double_checked_witness :
    scanBucket exC (hash_val 13) 2 13 = some 3 ∧
    (bgetMiss 100 exC 2 13).res = some 3 ∧
    (bread 100 disk0 exB 0 0).res = some 1 ∧
    (bread 100 disk0 (bread 100 disk0 exB 0 0).s 0 0).res = some 1 ∧
    (bread 100 disk0 (bread 100 disk0 exB 0 0).s 0 0).didRead = false := by
  refine ⟨by decide, (C3_double_checked.1 100 2 13 exC 3 (by decide)).1, by decide, ?_, ?_⟩
  · exact (C3_double_checked.2.1 100 disk0 exB 0 0 1 (by decide)).2.1
  · exact (C3_double_checked.2.1 100 disk0 exB 0 0 1 (by decide)).2.2

/-! ## Claim C6 -/

/-- C6: `bwrite` and `brelse` signal the fatal condition (`none`) exactly
when the caller does not hold the buffer's exclusive sleep lock; when the
lock is held, `brelse` decrements the buffer's `refcnt` (a wrapping
`uint`), moves the buffer to the most-recently-used position of its
bucket exactly when the count reaches zero, and releases the lock. -/
theorem C6_persist_release (s : BCache) (disk : Nat → Nat → Nat) (id : Nat) :
    (bwrite s disk id = none ↔ (s.bufs id).holding = false) ∧
    (brelse s id = none ↔ (s.bufs id).holding = false) ∧
    ((s.bufs id).holding = true →
      ∃ s', brelse s id = some s' ∧
        (s'.bufs id).refcnt = ((s.bufs id).refcnt + (UINT32 - 1)) % UINT32 ∧
        (s'.bufs id).holding = false ∧
        ((s'.bufs id).refcnt = 0 →
          s'.buckets (hash_val (s.bufs id).blockno) =
            id :: (s.buckets (hash_val (s.bufs id).blockno)).erase id ∧
          ∀ j, j ≠ hash_val (s.bufs id).blockno → s'.buckets j = s.buckets j) ∧
        ((s'.bufs id).refcnt ≠ 0 → s'.buckets = s.buckets)) := by
  by_cases hh : (s.bufs id).holding = true
  · have hrel : ¬ brelse s id = none := by
      intro hnone
      simp only [brelse, if_pos hh] at hnone
      split at hnone <;> simp at hnone
    refine ⟨by simp [bwrite, hh], ?_, ?_⟩
    · constructor
      · intro hnone
        exact absurd hnone hrel
      · intro hf
        rw [hf] at hh
        simp at hh
    intro _
    by_cases hc : ((s.bufs id).refcnt + (UINT32 - 1)) % UINT32 = 0
    · have hb : brelse s id = some
          { bufs :=
              updF s.bufs id
                ({ s.bufs id with
                   holding := false,
                   refcnt := ((s.bufs id).refcnt + (UINT32 - 1)) % UINT32 }),
            buckets := fun j =>
              if j = hash_val (s.bufs id).blockno
              then id :: (s.buckets (hash_val (s.bufs id).blockno)).erase id
              else s.buckets j } := by
        simp only [brelse, if_pos hh]
        rw [if_pos hc]
      rw [hb]
      refine ⟨_, rfl, by simp [updF], by simp [updF], ?_, ?_⟩
      · intro _
        exact ⟨by simp, fun j hj => by simp [hj]⟩
      · intro hcc
        exact absurd (by simp [updF, hc]) hcc
    · have hb : brelse s id = some
          { bufs :=
              updF s.bufs id
                ({ s.bufs id with
                   holding := false,
                   refcnt := ((s.bufs id).refcnt + (UINT32 - 1)) % UINT32 }),
            buckets := s.buckets } := by
        simp only [brelse, if_pos hh]
        rw [if_neg hc]
      rw [hb]
      refine ⟨_, rfl, by simp [updF], by simp [updF], ?_, ?_⟩
      · intro hzz
        exact absurd (by simpa [updF] using hzz) hc
      · intro _
        rfl
  · have hh2 : (s.bufs id).holding = false := by simpa using hh
    refine ⟨by simp [bwrite, hh2], by simp [brelse, hh2], ?_⟩
    intro hcon
    exact absurd hcon hh

/-- Witness for C6: buffer 4 of `exC` holds its sleep lock with
`refcnt = 1`; `brelse` drops the count to 0 and releases the lock. -/
theorem C6_persist_release_witness :
    (exC.bufs 4).holding = true ∧
    ∃ s', brelse exC 4 = some s' ∧ (s'.bufs 4).refcnt = 0 ∧ (s'.bufs 4).holding = false := by
  refine ⟨by decide, ?_⟩
  obtain ⟨s', h1, h2, h3, _, _⟩ := (C6_persist_release exC disk0 4).2.2 (by decide)
  refine ⟨s', h1, ?_, h3⟩
  rw [h2]
  decide

/-! ## Claim C8 -/

/-- C8 counterexample: in state `exB`, the eviction at clock value 100
selects buffer 1 and leaves its `lru_timestamp` at 9 — the acquisition
did not update the timestamp — even though buffer 2 was also evictable
with the strictly smaller (less recent) timestamp 5.  This refutes both
that every acquisition updates the recency timestamp and that eviction
order is determined by the timestamps (least recent first). -/
theorem C8_counterexample :
    (bgetMiss 100 exB 0 0).res = some 1 ∧
    ((bgetMiss 100 exB 0 0).s.bufs 1).lru_timestamp = 9 ∧
    ¬ ((bgetMiss 100 exB 0 0).s.bufs 1).lru_timestamp = 100 ∧
    (exB.bufs 2).refcnt = 0 ∧ 2 ∈ exB.buckets 2 ∧
    (exB.bufs 2).lru_timestamp = 5 ∧ (exB.bufs 1).lru_timestamp = 9 := by
  decide

theorem victimScan_retime (s : BCache) (f : Nat → Nat) (h : Nat) :
    ∀ (fuel i0 : Nat), victimScan (retime s f) h i0 fuel = victimScan s h i0 fuel := by
  intro fuel
  induction fuel with
  | zero =>
    intro i0
    rfl
  | succ m ih =>
    intro i0
    rw [victimScan, victimScan]
    by_cases hih : i0 = h
    · rw [if_pos hih, if_pos hih, ih]
    · rw [if_neg hih, if_neg hih]
      have hpr : (fun x => ((retime s f).bufs x).refcnt == 0) =
          (fun x => (s.bufs x).refcnt == 0) := by
        funext x
        rfl
      have hb : (retime s f).buckets i0 = s.buckets i0 := rfl
      rw [hpr, hb, ih]

/-- C8 (amended): hit and pin acquisitions update `lru_timestamp` to the
clock value, but the eviction acquisition leaves the victim's timestamp
unchanged, and victim selection is independent of the timestamps — it is
determined by bucket index order and position from the least-recently-used
end of each bucket's list. -/
theorem C8_amended :
    (∀ (ticks dev blockno : Nat) (s : BCache) (id : Nat),
      scanBucket s (hash_val blockno) dev blockno = some id →
      ((bget ticks s dev blockno).s.bufs id).lru_timestamp = ticks) ∧
    (∀ (ticks : Nat) (s : BCache) (id : Nat),
      ((bpin ticks s id).bufs id).lru_timestamp = ticks) ∧
    (∀ (ticks dev blockno : Nat) (s : BCache) (i id : Nat),
      scanBucket s (hash_val blockno) dev blockno = none →
      findVictim s (hash_val blockno) = some (i, id) →
      ((bgetMiss ticks s dev blockno).s.bufs id).lru_timestamp =
        (s.bufs id).lru_timestamp) ∧
    (∀ (s : BCache) (f : Nat → Nat) (h : Nat),
      findVictim (retime s f) h = findVictim s h) := by
  refine ⟨?_, ?_, ?_, ?_⟩
  · intro ticks dev blockno s id hfound
    simp [bget, hfound, updF, hitBuf]
  · intro ticks s id
    simp [bpin, updF]
  · intro ticks dev blockno s i id hmiss hvict
    have hv2 : (victimScan s (hash_val blockno) 0 NUM_BUCKET).2 = some (i, id) := hvict
    simp only [bgetMiss, hmiss, hv2]
    simp [updF]
  · intro s f h
    unfold findVictim
    rw [victimScan_retime]

/-- Witness for C8 (amended): a concrete hit, pin and eviction. -/
theorem C8_amended_witness :
    ((bget 100 exC 2 13).s.bufs 3).lru_timestamp = 100 ∧
    ((bpin 77 exC 3).bufs 3).lru_timestamp = 77 ∧
    ((bgetMiss 100 exB 0 0).s.bufs 1).lru_timestamp = (exB.bufs 1).lru_timestamp :=
  ⟨C8_amended.1 100 2 13 exC 3 (by decide), C8_amended.2.1 77 exC 3,
   C8_amended.2.2.1 100 0 0 exB 1 1 (by decide) (by decide)⟩

/-! ## Claim C9 -/

/-- C9 counterexample: in state `exB` the miss path for block 0 acquires,
in order, the global lock, target bucket 0 and donor bucket 1, and then
releases the TARGET bucket lock first, then the donor bucket lock, then
the global lock — the release subsequence is `[relBucket 0, relBucket 1,
relGlobal]`, not the reverse acquisition order `[relBucket 1, relBucket 0,
relGlobal]` that the claim asserts. -/
theorem C9_counterexample :
    (bgetMiss 100 exB 0 0).trace =
      [LockEv.acqGlobal, LockEv.acqBucket 0, LockEv.acqBucket 1, LockEv.relBucket 0,
       LockEv.relBucket 1, LockEv.relGlobal, LockEv.acqSleep 1] ∧
    releaseSeq (bgetMiss 100 exB 0 0).trace =
      [LockEv.relBucket 0, LockEv.relBucket 1, LockEv.relGlobal] ∧
    releaseSeq (bgetMiss 100 exB 0 0).trace ≠
      [LockEv.relBucket 1, LockEv.relBucket 0, LockEv.relGlobal] := by
  decide

/-- C9 (amended): on the miss/eviction path, after the scan the code
releases the target bucket lock first, then the donor bucket lock, then
the global lock — in this order, not reverse acquisition order — and only
then blocks on the winning buffer's sleep lock; none of those three locks
is released earlier during the scan. -/
theorem C9_amended (ticks dev blockno : Nat) (s : BCache) (i id : Nat)
    (hmiss : scanBucket s (hash_val blockno) dev blockno = none)
    (hvict : findVictim s (hash_val blockno) = some (i, id)) :
    (bgetMiss ticks s dev blockno).trace =
      [LockEv.acqGlobal, LockEv.acqBucket (hash_val blockno)] ++
        (victimScan s (hash_val blockno) 0 NUM_BUCKET).1 ++
        [LockEv.relBucket (hash_val blockno), LockEv.relBucket i, LockEv.relGlobal,
         LockEv.acqSleep id] ∧
    LockEv.relBucket (hash_val blockno) ∉ (victimScan s (hash_val blockno) 0 NUM_BUCKET).1 ∧
    LockEv.relBucket i ∉ (victimScan s (hash_val blockno) 0 NUM_BUCKET).1 ∧
    LockEv.relGlobal ∉ (victimScan s (hash_val blockno) 0 NUM_BUCKET).1 := by
  have hv2 : (victimScan s (hash_val blockno) 0 NUM_BUCKET).2 = some (i, id) := hvict
  obtain ⟨h1, h2, h3, h4, h5, h6, h7⟩ :=
    victimScan_found s (hash_val blockno) NUM_BUCKET 0
      (victimScan s (hash_val blockno) 0 NUM_BUCKET).1 i id (by rw [← hv2])
  refine ⟨by simp only [bgetMiss, hmiss, hv2], ?_, ?_, ?_⟩
  · intro hmem
    obtain ⟨j, hj1, hj2, hj3, hj4⟩ := h6 _ hmem
    rcases hj4 with hj4 | ⟨hj4, hlt⟩
    · simp at hj4
    · injection hj4 with he
      exact hj3 he.symm
  · intro hmem
    obtain ⟨j, hj1, hj2, hj3, hj4⟩ := h6 _ hmem
    rcases hj4 with hj4 | ⟨hj4, hlt⟩
    · simp at hj4
    · injection hj4 with he
      omega
  · intro hmem
    obtain ⟨j, hj1, hj2, hj3, hj4⟩ := h6 _ hmem
    rcases hj4 with hj4 | ⟨hj4, hlt⟩
    · simp at hj4
    · simp at hj4

/-- Witness for C9 (amended) at state `exB`, donor bucket 1, victim 1. -/
theorem C9_amended_witness :
    (bgetMiss 100 exB 0 0).trace =
      [LockEv.acqGlobal, LockEv.acqBucket (hash_val 0)] ++
        (victimScan exB (hash_val 0) 0 NUM_BUCKET).1 ++
        [LockEv.relBucket (hash_val 0), LockEv.relBucket 1, LockEv.relGlobal,
         LockEv.acqSleep 1] :=
  (C9_amended 100 0 0 exB 1 1 (by decide) (by decide)).1
